import Mathlib

/-!
# Verification of the Personal-Finance-App growth analytics and CSV normalizer

A shallow embedding, in Lean 4, of the algorithmic core of the
Personal-Finance-App repository:

* `src/lib/validations.ts` — the holding-record normalizer
  (`parseCurrency`, `parsePercent`, `transformCsvRow`,
  `transformWealthsimpleCsvRow`);
* the CSV import route (`POST`) — snapshot persistence and the
  portfolio-metrics aggregator;
* `src/app/api/analytics/growth/route.ts` — the per-source growth-series
  builder, the point-in-time external-account lookup
  (`getExternalAssetsAtDate`), and the external-accounts-only series;
* the charts page (`ChartsPage`) — the multi-source growth merger
  (collect pass into a date-keyed map, then the carry-forward pass
  producing `combinedGrowthData`).

Modelling conventions: JavaScript numbers are modelled as exact rationals
(`ℚ`), timestamps as integers (`ℤ`, milliseconds), calendar-day keys as the
floor-division of a timestamp by the day length.  JavaScript `null` and
`undefined` are modelled as `Option.none`.  The JavaScript `Array.prototype.sort`
(stable since ES2019) is modelled by `List.insertionSort`, which is likewise
stable for a total preorder.  `Math.round` is JavaScript round-half-up
(ties toward +∞), modelled exactly as `⌊x + 1/2⌋`.
-/

namespace FinApp

/-! ## JavaScript number parsing (`parseFloat`) and rounding (`Math.round`) -/

/-- JavaScript `Math.round`: rounds half toward positive infinity. -/
def jsRound (q : ℚ) : ℤ := ⌊q + 1/2⌋

/-- `Math.round(num * 10^d) / 10^d`, the rounding step of `parseCurrency`. -/
def roundTo (q : ℚ) (d : ℕ) : ℚ := (jsRound (q * 10 ^ d) : ℚ) / 10 ^ d

/-- Digit accumulator for a decimal digit string. -/
def digitsToNat (ds : List ℕ) : ℕ := ds.foldl (fun a d => a * 10 + d) 0

/-- Consume an optional sign character; returns (isNegative, rest). -/
def takeSign : List Char → Bool × List Char
  | '-' :: cs => (true, cs)
  | '+' :: cs => (false, cs)
  | cs => (false, cs)

/-- Split a leading run of decimal digits, as digit values. -/
def takeDigits (cs : List Char) : List ℕ × List Char :=
  let p := cs.span Char.isDigit
  (p.1.map (fun c => c.toNat - 48), p.2)

/-- Parse an optional exponent suffix `e`/`E` (sign, digits).  JavaScript
`parseFloat` ignores a dangling exponent marker with no digits. -/
def takeExp (cs : List Char) : ℤ :=
  match cs with
  | c :: cs1 =>
    if c = 'e' ∨ c = 'E' then
      let sn := takeSign cs1
      let ds := takeDigits sn.2
      if ds.1.isEmpty then 0
      else if sn.1 then -(digitsToNat ds.1 : ℤ) else (digitsToNat ds.1 : ℤ)
    else 0
  | [] => 0

/-- Model of JavaScript `parseFloat` on the decimal-notation fragment
(sign, integer digits, fraction digits, optional exponent); returns the
parsed mantissa `m : ℤ` and scale `s : ℤ` so that the value is `m * 10 ^ s`,
or `none` when no numeric prefix exists (`NaN`).  Trailing garbage is
ignored, exactly as `parseFloat` stops at the first invalid character. -/
def jsParseFloatP (cs : List Char) : Option (ℤ × ℤ) :=
  let cs0 := cs.dropWhile (fun c => c = ' ' ∨ c = '\t' ∨ c = '\n' ∨ c = '\r')
  let sn := takeSign cs0
  let intPart := takeDigits sn.2
  match intPart.2 with
  | '.' :: cs2 =>
    let fracPart := takeDigits cs2
    if intPart.1.isEmpty ∧ fracPart.1.isEmpty then none
    else
      let m : ℤ := digitsToNat (intPart.1 ++ fracPart.1)
      some (if sn.1 then -m else m, takeExp fracPart.2 - fracPart.1.length)
  | rest =>
    if intPart.1.isEmpty then none
    else
      let m : ℤ := digitsToNat intPart.1
      some (if sn.1 then -m else m, takeExp rest)

/-- The rational value parsed by `parseFloat`, or `none` for `NaN`. -/
def jsParseFloat (cs : List Char) : Option ℚ :=
  (jsParseFloatP cs).map (fun p => (p.1 : ℚ) * (10 : ℚ) ^ p.2)

/-! ## `src/lib/validations.ts` -/

/-- `value.replace(/[$,\s]/g, "").replace(/[()]/g, "-")`: strip currency
symbols, thousands separators and whitespace; parentheses become minus. -/
def cleanCurrencyChars (cs : List Char) : List Char :=
  cs.filterMap (fun c =>
    if c = '$' ∨ c = ',' ∨ c = ' ' ∨ c = '\t' ∨ c = '\n' ∨ c = '\r' then none
    else if c = '(' ∨ c = ')' then some '-'
    else some c)

/-- `parseCurrency` from `src/lib/validations.ts`: `null`, the empty or
all-whitespace string, and a lone `-` parse to `none`; otherwise the cleaned
string goes through `parseFloat`, `NaN` maps to `none`, and the result is
rounded once to `decimals` fractional digits with `Math.round`. -/
def parseCurrency (value : Option String) (decimals : ℕ) : Option ℚ :=
  match value with
  | none => none
  | some s =>
    if s = "" ∨ s.toList.all (fun c => c = ' ' ∨ c = '\t' ∨ c = '\n' ∨ c = '\r') ∨ s = "-"
    then none
    else
      match jsParseFloat (cleanCurrencyChars s.toList) with
      | none => none
      | some q => some (roundTo q decimals)

/-- `parsePercent` from `src/lib/validations.ts`: strips `%`, converts
parentheses to minus, trims, parses; no rounding. -/
def parsePercent (value : Option String) : Option ℚ :=
  match value with
  | none => none
  | some s =>
    if s = "" ∨ s.toList.all (fun c => c = ' ' ∨ c = '\t' ∨ c = '\n' ∨ c = '\r') ∨ s = "-"
    then none
    else
      jsParseFloat (((s.toList.filterMap (fun c =>
        if c = '%' then none
        else if c = '(' ∨ c = ')' then some '-'
        else some c)).dropWhile (fun c => c = ' ')).reverse.dropWhile (fun c => c = ' ')).reverse

/-- `row[col] || null`: the empty string is falsy and becomes `null`. -/
def strOrNone (o : Option String) : Option String :=
  match o with
  | some s => if s = "" then none else some s
  | none => none

/-- A raw Raymond James CSV row (`csvRowSchema`): every column is an
optional string. -/
structure CSVRow where
  clientName : Option String
  clientId : Option String
  accountNickname : Option String
  accountNumber : Option String
  assetCategory : Option String
  industry : Option String
  symbol : Option String
  holding : Option String
  quantity : Option String
  price : Option String
  fund : Option String
  averageCost : Option String
  bookValue : Option String
  marketValue : Option String
  accruedInterest : Option String
  gainLoss : Option String
  gainLossPercent : Option String
  percentageOfAssets : Option String
deriving DecidableEq

/-- A raw Wealthsimple CSV row (`wealthsimpleCsvRowSchema`). -/
structure WSRow where
  accountName : Option String
  accountType : Option String
  accountClassification : Option String
  accountNumber : Option String
  symbol : Option String
  exchange : Option String
  mic : Option String
  name : Option String
  securityType : Option String
  quantity : Option String
  positionDirection : Option String
  marketPrice : Option String
  marketPriceCurrency : Option String
  bookValueCad : Option String
  bookValueCurrency : Option String
  bookValueCurrencyMarket : Option String
  marketValue : Option String
  marketValueCurrency : Option String
  marketUnrealizedReturns : Option String
  marketUnrealizedReturnsCurrency : Option String
deriving DecidableEq

/-- The normalized holding record (`holdingSchema`).  `Client Id` and
`Account Number` have no counterpart here. -/
structure HoldingInput where
  clientName : Option String
  accountNickname : Option String
  assetCategory : Option String
  industry : Option String
  symbol : Option String
  holding : Option String
  quantity : Option ℚ
  price : Option ℚ
  fund : Option String
  averageCost : Option ℚ
  bookValue : Option ℚ
  marketValue : Option ℚ
  accruedInterest : Option ℚ
  gainLoss : Option ℚ
  gainLossPercent : Option ℚ
  percentageOfAssets : Option ℚ
deriving DecidableEq

/-- `transformCsvRow` from `src/lib/validations.ts`. -/
def transformCsvRow (row : CSVRow) : HoldingInput where
  clientName := strOrNone row.clientName
  accountNickname := strOrNone row.accountNickname
  assetCategory := strOrNone row.assetCategory
  industry := strOrNone row.industry
  symbol := strOrNone row.symbol
  holding := strOrNone row.holding
  quantity := parseCurrency row.quantity 6
  price := parseCurrency row.price 4
  fund := strOrNone row.fund
  averageCost := parseCurrency row.averageCost 4
  bookValue := parseCurrency row.bookValue 2
  marketValue := parseCurrency row.marketValue 2
  accruedInterest := parseCurrency row.accruedInterest 2
  gainLoss := parseCurrency row.gainLoss 2
  gainLossPercent := parsePercent row.gainLossPercent
  percentageOfAssets := parsePercent row.percentageOfAssets

/-- `transformWealthsimpleCsvRow` from `src/lib/validations.ts`. -/
def transformWealthsimpleCsvRow (row : WSRow) : HoldingInput :=
  let bookValue := parseCurrency row.bookValueCad 2
  let marketValue := parseCurrency row.marketValue 2
  let gainLoss := parseCurrency row.marketUnrealizedReturns 2
  let quantity := parseCurrency row.quantity 6
  let price := parseCurrency row.marketPrice 4
  let gainLossPercent : Option ℚ :=
    match bookValue, marketValue with
    | some b, some m => if b ≠ 0 then some ((jsRound ((m - b) / |b| * 10000) : ℚ) / 100) else none
    | _, _ => none
  let accountName := row.accountName.getD ""
  let accountType := row.accountType.getD ""
  let accountNickname :=
    if accountType ≠ "" then accountName ++ " - " ++ accountType else accountName
  let averageCost : Option ℚ :=
    match bookValue, quantity with
    | some b, some q => if b ≠ 0 ∧ q ≠ 0 then some ((jsRound (b / q * 10000) : ℚ) / 10000) else none
    | _, _ => none
  { clientName := none
    accountNickname := strOrNone (some accountNickname)
    assetCategory := strOrNone row.securityType
    industry := none
    symbol := strOrNone row.symbol
    holding := strOrNone row.name
    quantity := quantity
    price := price
    fund := none
    averageCost := averageCost
    bookValue := bookValue
    marketValue := marketValue
    accruedInterest := none
    gainLoss := gainLoss
    gainLossPercent := gainLossPercent
    percentageOfAssets := none }

/-- Modelled from the spec: round-half-away-from-zero at `d` fractional
digits, the rounding mode §4.1 prescribes; written only to be compared
against the code's `roundTo`. -/
def specRoundHalfAwayTo (q : ℚ) (d : ℕ) : ℚ :=
  (if 0 ≤ q then (⌊q * 10 ^ d + 1/2⌋ : ℤ) else -⌊-(q * 10 ^ d) + 1/2⌋ : ℤ) / (10 ^ d : ℚ)

/-! ## The CSV import route (`POST`): persistence and the aggregator -/

/-- The snapshot row the import route inserts (the fields the claims
need). -/
structure SnapshotRecord where
  recordCount : ℕ
deriving DecidableEq

/-- The import route: one snapshot row plus one holding row per CSV row,
each row normalized by `transformCsvRow`.  Every row is persisted; the
route has no per-row rejection path. -/
def importSnapshot (rows : List CSVRow) : SnapshotRecord × List HoldingInput :=
  ({ recordCount := rows.length }, rows.map transformCsvRow)

/-- `SUM` over the non-`NULL` values of a column, with `COALESCE(_, 0)`. -/
def sumSome (l : List (Option ℚ)) : ℚ := (l.filterMap id).sum

/-- One `portfolioMetrics` row. -/
structure PortfolioMetrics where
  totalMarketValue : ℚ
  totalBookValue : ℚ
  totalGainLoss : ℚ
  totalGainLossPercent : ℚ
  holdingsCount : ℕ
  accountsCount : ℕ
deriving DecidableEq

/-- The aggregator of the import route: column sums over the snapshot's
holdings, and the guarded gain/loss percent
`totalBookValue > 0 ? ((mv - bv) / bv) * 100 : 0`. -/
def computeMetrics (hs : List HoldingInput) : PortfolioMetrics :=
  let mv := sumSome (hs.map (fun h => h.marketValue))
  let bv := sumSome (hs.map (fun h => h.bookValue))
  let gl := sumSome (hs.map (fun h => h.gainLoss))
  { totalMarketValue := mv
    totalBookValue := bv
    totalGainLoss := gl
    totalGainLossPercent := if 0 < bv then (mv - bv) / bv * 100 else 0
    holdingsCount := hs.length
    accountsCount := ((hs.filterMap (fun h => h.accountNickname)).dedup).length }

/-- A concrete Raymond James row whose required numeric column
`Market Value` is the unparseable string `abc`. -/
def badRow : CSVRow where
  clientName := some "A Client"
  clientId := some "C-1"
  accountNickname := some "Investment Account - TFSA"
  accountNumber := some "123456"
  assetCategory := some "Equities"
  industry := none
  symbol := some "XYZ"
  holding := some "XYZ Corp"
  quantity := some "10"
  price := some "1.00"
  fund := none
  averageCost := some "1.00"
  bookValue := some "10.00"
  marketValue := some "abc"
  accruedInterest := none
  gainLoss := none
  gainLossPercent := none
  percentageOfAssets := none

/-! ## `src/app/api/analytics/growth/route.ts` -/

/-- `DEBT_TYPES`: the closed set of liability account types. -/
def DEBT_TYPES : List String := ["Mortgage", "Loan", "Credit Card"]

/-- One `externalAccountEntries` row, as the route selects it. -/
structure Entry where
  accountId : ℕ
  value : ℚ
  recordedAt : ℤ
deriving DecidableEq

/-- One `externalAccounts` row (the fields the route reads). -/
structure ExtAccount where
  id : ℕ
  accountType : Option String
deriving DecidableEq

/-- `DEBT_TYPES.includes(a.accountType || "")`. -/
def isDebtAccount (a : ExtAccount) : Bool := DEBT_TYPES.contains (a.accountType.getD "")

def assetAccountIds (accts : List ExtAccount) : List ℕ :=
  (accts.filter (fun a => !isDebtAccount a)).map (fun a => a.id)

def debtAccountIds (accts : List ExtAccount) : List ℕ :=
  (accts.filter (fun a => isDebtAccount a)).map (fun a => a.id)

def assetEntries (accts : List ExtAccount) (allEntries : List Entry) : List Entry :=
  allEntries.filter (fun e => (assetAccountIds accts).contains e.accountId)

def debtEntries (accts : List ExtAccount) (allEntries : List Entry) : List Entry :=
  allEntries.filter (fun e => (debtAccountIds accts).contains e.accountId)

/-- The per-account selection inside `getExternalAssetsAtDate`: filter to
this account (and, unless `isLatest`, to `recordedAt <= targetDate`) and
take the first remaining entry.  The route relies on `es` being sorted
newest-first (`orderBy desc(recordedAt)`). -/
def selectEntry (es : List Entry) (a : ℕ) (d : ℤ) (isLatest : Bool) : Option Entry :=
  (es.filter (fun e => e.accountId == a && (isLatest || decide (e.recordedAt ≤ d)))).head?

/-- `getExternalAssetsAtDate(targetDate, isLatest)`: sum over the asset
accounts of the selected entry's value; an account with no qualifying
entry contributes nothing. -/
def getExternalAssetsAtDate (ids : List ℕ) (es : List Entry) (d : ℤ) (isLatest : Bool) : ℚ :=
  (ids.map (fun a =>
    match selectEntry es a d isLatest with
    | some e => e.value
    | none => 0)).sum

/-- `getCurrentExternalAssets()`: the newest entry per asset account,
regardless of any date. -/
def getCurrentExternalAssets (ids : List ℕ) (es : List Entry) : ℚ :=
  (ids.map (fun a =>
    match (es.filter (fun e => e.accountId == a)).head? with
    | some e => e.value
    | none => 0)).sum

/-- One row of the snapshots/metrics join (`growthData`). -/
structure GrowthRow where
  snapshotDate : ℤ
  totalMarketValue : Option ℚ
  totalBookValue : Option ℚ
  totalGainLoss : Option ℚ
  totalGainLossPercent : Option ℚ
  holdingsCount : ℕ
deriving DecidableEq

/-- One data point the growth route returns.  `externalDebt` is only
present on the external-accounts-only path. -/
structure RoutePoint where
  date : ℤ
  totalValue : ℚ
  bookValue : ℚ
  gainLoss : ℚ
  gainLossPercent : ℚ
  externalAssets : ℚ
  externalDebt : Option ℚ
  combinedValue : ℚ
  periodChange : ℚ
  periodChangePercent : ℚ
  holdingsCount : ℕ
deriving DecidableEq

/-- The snapshot-backed path (`growthData.map` with index): period change
against the previous row, and external assets resolved at the snapshot
date — except for the chronologically last row, which gets the live
`currentExternalAssets`. -/
def snapshotPoints (ids : List ℕ) (es : List Entry) (curExt : ℚ) :
    Option GrowthRow → List GrowthRow → List RoutePoint
  | _, [] => []
  | prev, r :: rest =>
    let isLatest := rest.isEmpty
    let currentValue := r.totalMarketValue.getD 0
    let prevValue := match prev with
      | some p => p.totalMarketValue.getD 0
      | none => currentValue
    let periodChange := currentValue - prevValue
    let externalAssets :=
      if isLatest then curExt else getExternalAssetsAtDate ids es r.snapshotDate false
    { date := r.snapshotDate
      totalValue := currentValue
      bookValue := r.totalBookValue.getD 0
      gainLoss := r.totalGainLoss.getD 0
      gainLossPercent := r.totalGainLossPercent.getD 0
      externalAssets := externalAssets
      externalDebt := none
      combinedValue := currentValue + externalAssets
      periodChange := periodChange
      periodChangePercent := if 0 < prevValue then periodChange / prevValue * 100 else 0
      holdingsCount := r.holdingsCount } :: snapshotPoints ids es curExt (some r) rest

/-- The per-account as-of selection of the external-only path: filter to
`accountId` and `recordedAt <= t`, sort newest-first, take the head. -/
def asOfPick (es : List Entry) (a : ℕ) (t : ℤ) : Option Entry :=
  (List.insertionSort (fun e1 e2 : Entry => e2.recordedAt ≤ e1.recordedAt)
    (es.filter (fun e => e.accountId == a && decide (e.recordedAt ≤ t)))).head?

/-- Total assets as of timestamp `t` (external-only path). -/
def assetsAsOf (ids : List ℕ) (es : List Entry) (t : ℤ) : ℚ :=
  (ids.map (fun a =>
    match asOfPick es a t with
    | some e => e.value
    | none => 0)).sum

/-- Total debt as of timestamp `t`: the magnitude `Math.abs` of each debt
account's most recent entry. -/
def debtAsOf (ids : List ℕ) (es : List Entry) (t : ℤ) : ℚ :=
  (ids.map (fun a =>
    match asOfPick es a t with
    | some e => |e.value|
    | none => 0)).sum

/-- A millisecond timestamp collapsed to its calendar-day key
(`toISOString().split('T')[0]`). -/
def dayKey (t : ℤ) : ℤ := Int.fdiv t 86400000

/-- `Map.set`: update in place when the key exists (keeping its position),
append otherwise. -/
def upsertDay (m : List (ℤ × ℚ × ℚ)) (k : ℤ) (v : ℚ × ℚ) : List (ℤ × ℚ × ℚ) :=
  match m with
  | [] => [(k, v)]
  | (k1, v1) :: rest => if k1 = k then (k, v) :: rest else (k1, v1) :: upsertDay rest k v

/-- The external-only date map: walk the chronologically sorted entries
and at each entry recompute total assets and debt as of that entry's
timestamp, keyed by calendar day (later entries of a day overwrite). -/
def extOnlyDateMap (aIds dIds : List ℕ) (aes des : List Entry)
    (sortedEntries : List Entry) : List (ℤ × ℚ × ℚ) :=
  sortedEntries.foldl
    (fun m e =>
      upsertDay m (dayKey e.recordedAt) (assetsAsOf aIds aes e.recordedAt, debtAsOf dIds des e.recordedAt))
    []

/-- The projection of the sorted date map to chart points: net worth is
assets minus debt, with period change against the previous day. -/
def extOnlyPoints : Option (ℚ × ℚ) → List (ℤ × ℚ × ℚ) → List RoutePoint
  | _, [] => []
  | prev, (day, v) :: rest =>
    let netWorth := v.1 - v.2
    let prevV := prev.getD v
    let prevNet := prevV.1 - prevV.2
    let periodChange := netWorth - prevNet
    { date := day
      totalValue := 0
      bookValue := 0
      gainLoss := 0
      gainLossPercent := 0
      externalAssets := v.1
      externalDebt := some v.2
      combinedValue := netWorth
      periodChange := periodChange
      periodChangePercent := if prevNet ≠ 0 then periodChange / |prevNet| * 100 else 0
      holdingsCount := 0 } :: extOnlyPoints (some v) rest

/-- The external-accounts-only series (no portfolio snapshots exist). -/
def extOnlySeries (aIds dIds : List ℕ) (aes des : List Entry) : List RoutePoint :=
  let sortedEntries :=
    List.insertionSort (fun e1 e2 : Entry => e1.recordedAt ≤ e2.recordedAt) (aes ++ des)
  let sortedDates :=
    List.insertionSort (fun a b : ℤ × ℚ × ℚ => a.1 ≤ b.1)
      (extOnlyDateMap aIds dIds aes des sortedEntries)
  extOnlyPoints none sortedDates

/-- The growth route `GET`, after authentication and data loading: the
snapshot-backed path when any snapshot row exists, the external-only path
when external entries exist, and the empty series otherwise.  The function
is total by construction — every branch returns a list. -/
def growthGET (gd : List GrowthRow) (accts : List ExtAccount) (allEntries : List Entry) :
    List RoutePoint :=
  let aIds := assetAccountIds accts
  let dIds := debtAccountIds accts
  let aes := assetEntries accts allEntries
  let des := debtEntries accts allEntries
  if gd.isEmpty then
    if (aes ++ des).isEmpty then []
    else extOnlySeries aIds dIds aes des
  else snapshotPoints aIds aes (getCurrentExternalAssets aIds aes) none gd

/-! ## The multi-source growth merger (`ChartsPage`) -/

/-- The two portfolio sources. -/
inductive Source where
  | rj : Source
  | ws : Source
deriving DecidableEq

/-- One `ApiGrowthDataPoint` as fetched per source. -/
structure ApiPoint where
  date : ℤ
  totalValue : ℚ
  bookValue : ℚ
  gainLoss : ℚ
  externalAssets : Option ℚ
deriving DecidableEq

/-- One source's fetched growth series. -/
structure SourceSeries where
  src : Source
  growthData : List ApiPoint
deriving DecidableEq

/-- A `CombinedGrowthDataPoint`: the map accumulator of the collect pass
and, with its optional slots resolved, the merged chart point. -/
structure CombinedPoint where
  date : ℤ
  rjValue : Option ℚ
  wsValue : Option ℚ
  totalPortfolioValue : ℚ
  bookValue : ℚ
  gainLoss : ℚ
  externalAssets : Option ℚ
  combinedValue : ℚ
deriving DecidableEq

/-- JavaScript `a || b` on an optional number: `0` is falsy. -/
def jsOrOpt (a b : Option ℚ) : Option ℚ :=
  match a with
  | some v => if v = 0 then b else some v
  | none => b

/-- The collect-pass upsert for one point of one source: an existing
same-day accumulator adds this source's value into that source's slot and
accumulates book value and gain/loss; a missing day creates a fresh
accumulator with only this source's slot set. -/
def addPoint (src : Source) (m : List (ℤ × CombinedPoint)) (p : ApiPoint) :
    List (ℤ × CombinedPoint) :=
  match m with
  | [] =>
    [(dayKey p.date,
      { date := p.date
        rjValue := if src = Source.rj then some p.totalValue else none
        wsValue := if src = Source.ws then some p.totalValue else none
        totalPortfolioValue := 0
        bookValue := p.bookValue
        gainLoss := p.gainLoss
        externalAssets := p.externalAssets
        combinedValue := 0 })]
  | (k, e) :: rest =>
    if k = dayKey p.date then
      (k,
        { e with
          rjValue := if src = Source.rj then some (e.rjValue.getD 0 + p.totalValue) else e.rjValue
          wsValue := if src = Source.ws then some (e.wsValue.getD 0 + p.totalValue) else e.wsValue
          bookValue := e.bookValue + p.bookValue
          gainLoss := e.gainLoss + p.gainLoss
          externalAssets := jsOrOpt p.externalAssets e.externalAssets }) :: rest
    else (k, e) :: addPoint src rest p

/-- The collect pass: fold every point of every source into the date-keyed
map (`growthByDate`). -/
def collectPass (sources : List SourceSeries) : List (ℤ × CombinedPoint) :=
  sources.foldl (fun m s => s.growthData.foldl (addPoint s.src) m) []

/-- `sortedData`: the map's accumulators sorted ascending by date. -/
def sortedData (sources : List SourceSeries) : List CombinedPoint :=
  List.insertionSort (fun a b : CombinedPoint => a.date ≤ b.date)
    ((collectPass sources).map Prod.snd)

/-- Whether any series of the given source is nonempty (`hasRJ`/`hasWS`). -/
def hasSource (sources : List SourceSeries) (src : Source) : Bool :=
  sources.any (fun s => s.src == src && !s.growthData.isEmpty)

/-- The carry-forward pass: walk the sorted accumulators threading the
last-known value per source slot and for external assets (all initialized
to zero); a set slot updates its carry variable, an unset slot reads it.
The external-assets carry variable is only updated by a positive value. -/
def carryPass (hRJ hWS : Bool) (lastRJ lastWS lastExt : ℚ) :
    List CombinedPoint → List CombinedPoint
  | [] => []
  | p :: rest =>
    let rj := p.rjValue.getD lastRJ
    let ws := p.wsValue.getD lastWS
    let nextExt :=
      match p.externalAssets with
      | some v => if 0 < v then v else lastExt
      | none => lastExt
    let ext := p.externalAssets.getD lastExt
    let total := rj + ws
    { p with
      rjValue := if hRJ then some rj else none
      wsValue := if hWS then some ws else none
      totalPortfolioValue := total
      externalAssets := some ext
      combinedValue := total + ext } :: carryPass hRJ hWS rj ws nextExt rest

/-- `combinedGrowthData`: the full two-pass merge. -/
def combinedGrowthData (sources : List SourceSeries) : List CombinedPoint :=
  carryPass (hasSource sources Source.rj) (hasSource sources Source.ws) 0 0 0
    (sortedData sources)

/-- The carry variable of one optional-value stream after a prefix: the
fold the carry pass performs on a slot. -/
def slotState (a : ℚ) (l : List (Option ℚ)) : ℚ := l.foldl (fun acc o => o.getD acc) a

/-- The carry variable of the external-assets stream after a prefix:
updated only by a present, strictly positive value. -/
def extSlotState (a : ℚ) (l : List (Option ℚ)) : ℚ :=
  l.foldl
    (fun acc o =>
      match o with
      | some v => if 0 < v then v else acc
      | none => acc)
    a

/-- The declarative reading of carry-forward: the value of the most recent
set slot, or the default when no slot is set. -/
def lastReportedD (d : ℚ) (l : List (Option ℚ)) : ℚ := (l.filterMap id).getLastD d

/-! ## Concrete fixtures used by witnesses -/

/-- Two snapshot rows on consecutive days. -/
def wGrowthRows : List GrowthRow :=
  [{ snapshotDate := 0, totalMarketValue := some 100, totalBookValue := none,
     totalGainLoss := none, totalGainLossPercent := none, holdingsCount := 1 },
   { snapshotDate := 86400000, totalMarketValue := some 200, totalBookValue := none,
     totalGainLoss := none, totalGainLossPercent := none, holdingsCount := 1 }]

/-- One asset account and one mortgage (debt) account. -/
def wAccounts : List ExtAccount :=
  [{ id := 1, accountType := none }, { id := 2, accountType := some "Mortgage" }]

/-- Entries newest-first, as the route's `orderBy desc(recordedAt)` returns
them; the debt entry is the positive magnitude 2000. -/
def wEntries : List Entry :=
  [{ accountId := 1, value := 7, recordedAt := 100 },
   { accountId := 2, value := 2000, recordedAt := 50 },
   { accountId := 1, value := 4, recordedAt := 10 }]

/-- Scenario A of §8: source RJ reports on day 0 (1000) and day 2 (1200);
source WS reports only on day 1 (500). -/
def wSources : List SourceSeries :=
  [{ src := Source.rj,
     growthData := [{ date := 0, totalValue := 1000, bookValue := 0, gainLoss := 0, externalAssets := none },
                    { date := 172800000, totalValue := 1200, bookValue := 0, gainLoss := 0, externalAssets := none }] },
   { src := Source.ws,
     growthData := [{ date := 86400000, totalValue := 500, bookValue := 0, gainLoss := 0, externalAssets := none }] }]

/-! ## Theorems -/

/-- Helper: a successful `selectEntry` with `isLatest = false` on a
newest-first entry list returns a qualifying entry of maximal
`recordedAt`. -/
theorem selectEntry_spec (es : List Entry) (a : ℕ) (d : ℤ) (e : Entry)
    (hs : List.Pairwise (fun x y : Entry => y.recordedAt ≤ x.recordedAt) es)
    (h : selectEntry es a d false = some e) :
    e ∈ es ∧ e.accountId = a ∧ e.recordedAt ≤ d ∧
      ∀ e2 ∈ es, e2.accountId = a → e2.recordedAt ≤ d → e2.recordedAt ≤ e.recordedAt := by
  unfold selectEntry at h
  obtain ⟨t, ht⟩ : ∃ t, es.filter
      (fun x => x.accountId == a && (false || decide (x.recordedAt ≤ d))) = e :: t := by
    cases hf : es.filter (fun x => x.accountId == a && (false || decide (x.recordedAt ≤ d))) with
    | nil => rw [hf] at h; exact absurd h (by simp)
    | cons x t =>
      rw [hf] at h
      simp only [List.head?_cons, Option.some_inj] at h
      exact ⟨t, by rw [← h]⟩
  have hmemf : e ∈ es.filter (fun x => x.accountId == a && (false || decide (x.recordedAt ≤ d))) := by
    rw [ht]; exact List.mem_cons_self _ _
  have hmem := (List.mem_filter.mp hmemf).1
  have hpe := (List.mem_filter.mp hmemf).2
  obtain ⟨ha, hd⟩ : e.accountId = a ∧ e.recordedAt ≤ d := by simpa using hpe
  refine ⟨hmem, ha, hd, ?_⟩
  intro e2 hmem2 ha2 hd2
  have h2f : e2 ∈ es.filter (fun x => x.accountId == a && (false || decide (x.recordedAt ≤ d))) :=
    List.mem_filter.mpr ⟨hmem2, by simp [ha2, hd2]⟩
  have hpw : List.Pairwise (fun x y : Entry => y.recordedAt ≤ x.recordedAt)
      (es.filter (fun x => x.accountId == a && (false || decide (x.recordedAt ≤ d)))) :=
    List.Pairwise.sublist (List.filter_sublist es) hs
  rw [ht] at h2f hpw
  rcases List.mem_cons.mp h2f with h2e | h2t
  · rw [h2e]
  · exact List.rel_of_pairwise_cons hpw h2t

/-- Helper: `selectEntry` with `isLatest = false` is absent when no entry
of the account lies at or before the query date. -/
theorem selectEntry_eq_none (es : List Entry) (a : ℕ) (d : ℤ)
    (h : ∀ e ∈ es, ¬(e.accountId = a ∧ e.recordedAt ≤ d)) :
    selectEntry es a d false = none := by
  unfold selectEntry
  rw [List.filter_eq_nil_iff.mpr (fun e he => by simpa using h e he)]
  rfl

/-- C5: on the newest-first entry list the route works with, the
point-in-time lookup with `includeFuture = false` is monotonic — for query
dates `d1 < d2` with both lookups successful, the entry chosen for `d1` is
recorded no later than the one chosen for `d2`; moreover each lookup
returns a qualifying entry of maximal `recordedAt`, and is absent exactly
when no entry of the account lies at or before the query date. -/
theorem ledger_lookup_monotonic :
    (∀ (es : List Entry) (a : ℕ) (d1 d2 : ℤ) (e1 e2 : Entry),
      List.Pairwise (fun x y : Entry => y.recordedAt ≤ x.recordedAt) es →
      d1 < d2 →
      selectEntry es a d1 false = some e1 →
      selectEntry es a d2 false = some e2 →
      e1.recordedAt ≤ e2.recordedAt) ∧
    (∀ (es : List Entry) (a : ℕ) (d : ℤ) (e : Entry),
      List.Pairwise (fun x y : Entry => y.recordedAt ≤ x.recordedAt) es →
      selectEntry es a d false = some e →
      e ∈ es ∧ e.accountId = a ∧ e.recordedAt ≤ d ∧
        ∀ e2 ∈ es, e2.accountId = a → e2.recordedAt ≤ d → e2.recordedAt ≤ e.recordedAt) ∧
    (∀ (es : List Entry) (a : ℕ) (d : ℤ),
      (∀ e ∈ es, ¬(e.accountId = a ∧ e.recordedAt ≤ d)) → selectEntry es a d false = none) := by
  refine ⟨?_, fun es a d e hs h => selectEntry_spec es a d e hs h, selectEntry_eq_none⟩
  intro es a d1 d2 e1 e2 hs h12 h1 h2
  obtain ⟨hmem1, ha1, hd1, _⟩ := selectEntry_spec es a d1 e1 hs h1
  obtain ⟨_, _, _, hmax2⟩ := selectEntry_spec es a d2 e2 hs h2
  exact hmax2 e1 hmem1 ha1 (le_trans hd1 (le_of_lt h12))

/-- Witness for `ledger_lookup_monotonic` on the concrete entry list:
account 1 queried at dates 60 and 120 selects the entries recorded at 10
and 100 respectively. -/
theorem ledger_lookup_monotonic_witness :
    selectEntry wEntries 1 60 false = some { accountId := 1, value := 4, recordedAt := 10 } ∧
    selectEntry wEntries 1 120 false = some { accountId := 1, value := 7, recordedAt := 100 } ∧
    (10 : ℤ) ≤ 100 :=
  ⟨rfl, rfl,
    ledger_lookup_monotonic.1 wEntries 1 60 120
      { accountId := 1, value := 4, recordedAt := 10 }
      { accountId := 1, value := 7, recordedAt := 100 }
      (by decide) (by decide) rfl rfl⟩

/-- Helper: the head of the account-only filter on a newest-first list is
an entry of that account of maximal `recordedAt`. -/
theorem latestEntry_spec (es : List Entry) (a : ℕ) (e : Entry)
    (hs : List.Pairwise (fun x y : Entry => y.recordedAt ≤ x.recordedAt) es)
    (h : (es.filter (fun x => x.accountId == a)).head? = some e) :
    e ∈ es ∧ e.accountId = a ∧
      ∀ e2 ∈ es, e2.accountId = a → e2.recordedAt ≤ e.recordedAt := by
  obtain ⟨t, ht⟩ : ∃ t, es.filter (fun x => x.accountId == a) = e :: t := by
    cases hf : es.filter (fun x => x.accountId == a) with
    | nil => rw [hf] at h; exact absurd h (by simp)
    | cons x t =>
      rw [hf] at h
      simp only [List.head?_cons, Option.some_inj] at h
      exact ⟨t, by rw [← h]⟩
  have hmemf : e ∈ es.filter (fun x => x.accountId == a) := by
    rw [ht]; exact List.mem_cons_self _ _
  have hmem := (List.mem_filter.mp hmemf).1
  have ha : e.accountId = a := by simpa using (List.mem_filter.mp hmemf).2
  refine ⟨hmem, ha, ?_⟩
  intro e2 hmem2 ha2
  have h2f : e2 ∈ es.filter (fun x => x.accountId == a) :=
    List.mem_filter.mpr ⟨hmem2, by simp [ha2]⟩
  have hpw : List.Pairwise (fun x y : Entry => y.recordedAt ≤ x.recordedAt)
      (es.filter (fun x => x.accountId == a)) :=
    List.Pairwise.sublist (List.filter_sublist es) hs
  rw [ht] at h2f hpw
  rcases List.mem_cons.mp h2f with h2e | h2t
  · rw [h2e]
  · exact List.rel_of_pairwise_cons hpw h2t

/-- Helper: the element at index `i` of the snapshot-backed series takes
its date from row `i` and resolves external assets at that date — except at
the final index, where it takes the live current value. -/
theorem snapshotPoints_elem (ids : List ℕ) (es : List Entry) (curExt : ℚ) :
    ∀ (gd : List GrowthRow) (prev : Option GrowthRow) (i : ℕ) (r : GrowthRow),
      gd[i]? = some r →
      ∃ pt, (snapshotPoints ids es curExt prev gd)[i]? = some pt ∧
        pt.date = r.snapshotDate ∧
        pt.externalAssets = (if i = gd.length - 1 then curExt
          else getExternalAssetsAtDate ids es r.snapshotDate false) := by
  intro gd
  induction gd with
  | nil => intro prev i r h; simp at h
  | cons x rest ih =>
    intro prev i r h
    cases i with
    | zero =>
      simp only [List.getElem?_cons_zero, Option.some_inj] at h
      subst h
      simp only [snapshotPoints, List.getElem?_cons_zero]
      refine ⟨_, rfl, rfl, ?_⟩
      show (if rest.isEmpty then curExt else _) = _
      by_cases hr : rest.isEmpty
      · rw [if_pos hr, if_pos]
        have hnil : rest = [] := List.isEmpty_iff.mp hr
        simp [hnil]
      · rw [if_neg hr, if_neg]
        have hnn : rest ≠ [] := fun hc => hr (by simp [hc])
        have hlen : 0 < rest.length := List.length_pos.mpr hnn
        simp only [List.length_cons]
        omega
    | succ n =>
      have h2 : rest[n]? = some r := by simpa using h
      have hn : n < rest.length := by
        rcases List.getElem?_eq_some.mp h2 with ⟨hlt, _⟩
        exact hlt
      obtain ⟨pt, hpt, hdate, hext⟩ := ih (some x) n r h2
      refine ⟨pt, ?_, hdate, ?_⟩
      · simp only [snapshotPoints, List.getElem?_cons_succ]
        exact hpt
      rw [hext]
      by_cases hc : n = rest.length - 1
      · rw [if_pos hc, if_pos (by simp only [List.length_cons]; omega)]
      · rw [if_neg hc, if_neg (by simp only [List.length_cons]; omega)]

/-- C4: in the snapshot-backed growth series every point except the
chronologically last resolves each asset account's value as the most
recent entry recorded at or before that point's snapshot date, while the
last point takes each asset account's most recent entry regardless of the
snapshot date. -/
theorem last_point_uses_live_externals :
    ∀ (gd : List GrowthRow) (accts : List ExtAccount) (allEntries : List Entry),
      List.Pairwise (fun x y : Entry => y.recordedAt ≤ x.recordedAt) allEntries →
      ∀ (i : ℕ) (r : GrowthRow) (pt : RoutePoint),
        gd[i]? = some r →
        (growthGET gd accts allEntries)[i]? = some pt →
        (i ≠ gd.length - 1 →
          pt.externalAssets =
            getExternalAssetsAtDate (assetAccountIds accts) (assetEntries accts allEntries)
              r.snapshotDate false ∧
          ∀ (a : ℕ) (e : Entry),
            selectEntry (assetEntries accts allEntries) a r.snapshotDate false = some e →
            e.accountId = a ∧ e.recordedAt ≤ r.snapshotDate ∧
              ∀ e2 ∈ assetEntries accts allEntries, e2.accountId = a →
                e2.recordedAt ≤ r.snapshotDate → e2.recordedAt ≤ e.recordedAt) ∧
        (i = gd.length - 1 →
          pt.externalAssets =
            getCurrentExternalAssets (assetAccountIds accts) (assetEntries accts allEntries) ∧
          ∀ (a : ℕ) (e : Entry),
            ((assetEntries accts allEntries).filter (fun x => x.accountId == a)).head? = some e →
            e.accountId = a ∧ ∀ e2 ∈ assetEntries accts allEntries, e2.accountId = a →
              e2.recordedAt ≤ e.recordedAt) := by
  intro gd accts allEntries hs i r pt hr hpt
  have hsA : List.Pairwise (fun x y : Entry => y.recordedAt ≤ x.recordedAt)
      (assetEntries accts allEntries) :=
    List.Pairwise.sublist (List.filter_sublist allEntries) hs
  have hne : ¬gd.isEmpty := by
    rcases List.getElem?_eq_some.mp hr with ⟨hlt, _⟩
    cases gd with
    | nil => simp at hlt
    | cons a l => simp
  rw [growthGET, if_neg hne] at hpt
  obtain ⟨pt2, hpt2, _, hext⟩ :=
    snapshotPoints_elem (assetAccountIds accts) (assetEntries accts allEntries)
      (getCurrentExternalAssets (assetAccountIds accts) (assetEntries accts allEntries))
      gd none i r hr
  rw [hpt2] at hpt
  have hpteq : pt2 = pt := by exact Option.some_inj.mp hpt
  subst hpteq
  constructor
  · intro hne2
    refine ⟨by rw [hext, if_neg hne2], ?_⟩
    intro a e he
    obtain ⟨hmem, ha, hd, hmax⟩ := selectEntry_spec _ a r.snapshotDate e hsA he
    exact ⟨ha, hd, hmax⟩
  · intro heq
    refine ⟨by rw [hext, if_pos heq], ?_⟩
    intro a e he
    obtain ⟨hmem, ha, hmax⟩ := latestEntry_spec _ a e hsA he
    exact ⟨ha, hmax⟩

/-- Witness for `last_point_uses_live_externals` at the concrete two-row
series: the first (non-final) point resolves external assets at its
snapshot date. -/
theorem last_point_uses_live_externals_witness :
    ∃ pt, (growthGET wGrowthRows wAccounts wEntries)[0]? = some pt ∧
      pt.externalAssets =
        getExternalAssetsAtDate (assetAccountIds wAccounts) (assetEntries wAccounts wEntries)
          0 false := by
  cases hpt : (growthGET wGrowthRows wAccounts wEntries)[0]? with
  | none => exact absurd hpt (by decide)
  | some pt =>
    refine ⟨pt, rfl, ?_⟩
    have h := (last_point_uses_live_externals wGrowthRows wAccounts wEntries (by decide) 0
      { snapshotDate := 0, totalMarketValue := some 100, totalBookValue := none,
        totalGainLoss := none, totalGainLossPercent := none, holdingsCount := 1 }
      pt rfl hpt).1 (by decide)
    exact h.1

/-- Helper: a successful `asOfPick` returns a qualifying entry of maximal
`recordedAt` (the external-only path sorts explicitly, so no input-order
hypothesis is needed). -/
theorem asOfPick_spec (es : List Entry) (a : ℕ) (t : ℤ) (e : Entry)
    (h : asOfPick es a t = some e) :
    e ∈ es ∧ e.accountId = a ∧ e.recordedAt ≤ t ∧
      ∀ e2 ∈ es, e2.accountId = a → e2.recordedAt ≤ t → e2.recordedAt ≤ e.recordedAt := by
  unfold asOfPick at h
  haveI hTot : IsTotal Entry (fun e1 e2 : Entry => e2.recordedAt ≤ e1.recordedAt) :=
    ⟨fun x y => le_total y.recordedAt x.recordedAt⟩
  haveI hTrans : IsTrans Entry (fun e1 e2 : Entry => e2.recordedAt ≤ e1.recordedAt) :=
    ⟨fun x y z h1 h2 => le_trans h2 h1⟩
  have hperm := List.perm_insertionSort (fun e1 e2 : Entry => e2.recordedAt ≤ e1.recordedAt)
    (es.filter (fun x => x.accountId == a && decide (x.recordedAt ≤ t)))
  have hsort := List.sorted_insertionSort (fun e1 e2 : Entry => e2.recordedAt ≤ e1.recordedAt)
    (es.filter (fun x => x.accountId == a && decide (x.recordedAt ≤ t)))
  obtain ⟨tl, htl⟩ : ∃ tl,
      List.insertionSort (fun e1 e2 : Entry => e2.recordedAt ≤ e1.recordedAt)
        (es.filter (fun x => x.accountId == a && decide (x.recordedAt ≤ t))) = e :: tl := by
    cases hf : List.insertionSort (fun e1 e2 : Entry => e2.recordedAt ≤ e1.recordedAt)
        (es.filter (fun x => x.accountId == a && decide (x.recordedAt ≤ t))) with
    | nil => rw [hf] at h; exact absurd h (by simp)
    | cons x tl =>
      rw [hf] at h
      simp only [List.head?_cons, Option.some_inj] at h
      exact ⟨tl, by rw [← h]⟩
  have hmemf : e ∈ es.filter (fun x => x.accountId == a && decide (x.recordedAt ≤ t)) := by
    rw [← hperm.mem_iff]
    rw [htl]
    exact List.mem_cons_self _ _
  have hmem := (List.mem_filter.mp hmemf).1
  obtain ⟨ha, hd⟩ : e.accountId = a ∧ e.recordedAt ≤ t := by
    simpa using (List.mem_filter.mp hmemf).2
  refine ⟨hmem, ha, hd, ?_⟩
  intro e2 hmem2 ha2 hd2
  have h2f : e2 ∈ es.filter (fun x => x.accountId == a && decide (x.recordedAt ≤ t)) :=
    List.mem_filter.mpr ⟨hmem2, by simp [ha2, hd2]⟩
  have h2s : e2 ∈ List.insertionSort (fun e1 e2 : Entry => e2.recordedAt ≤ e1.recordedAt)
      (es.filter (fun x => x.accountId == a && decide (x.recordedAt ≤ t))) :=
    hperm.mem_iff.mpr h2f
  rw [htl] at h2s hsort
  rcases List.mem_cons.mp h2s with h2e | h2t
  · rw [h2e]
  · exact List.rel_of_pairwise_cons hsort h2t

/-- Helper: membership after a `Map.set`-style upsert. -/
theorem mem_upsertDay (m : List (ℤ × ℚ × ℚ)) (k : ℤ) (v : ℚ × ℚ) (x : ℤ × ℚ × ℚ)
    (h : x ∈ upsertDay m k v) : x = (k, v) ∨ x ∈ m := by
  induction m with
  | nil => simpa [upsertDay] using h
  | cons y rest ih =>
    obtain ⟨k1, v1⟩ := y
    rw [upsertDay] at h
    by_cases hk : k1 = k
    · rw [if_pos hk] at h
      rcases List.mem_cons.mp h with h1 | h1
      · exact Or.inl h1
      · exact Or.inr (List.mem_cons_of_mem _ h1)
    · rw [if_neg hk] at h
      rcases List.mem_cons.mp h with h1 | h1
      · exact Or.inr (by rw [h1]; exact List.mem_cons_self _ _)
      · rcases ih h1 with h2 | h2
        · exact Or.inl h2
        · exact Or.inr (List.mem_cons_of_mem _ h2)

/-- Helper: every accumulator in the external-only date map records the
asset and debt totals as of some timestamp of its day. -/
theorem extOnlyDateMap_inv (aIds dIds : List ℕ) (aes des : List Entry) :
    ∀ (l : List Entry) (m0 : List (ℤ × ℚ × ℚ)),
      (∀ x ∈ m0, ∃ t : ℤ, x.1 = dayKey t ∧ x.2.1 = assetsAsOf aIds aes t ∧
        x.2.2 = debtAsOf dIds des t) →
      ∀ x ∈ l.foldl (fun m e => upsertDay m (dayKey e.recordedAt)
          (assetsAsOf aIds aes e.recordedAt, debtAsOf dIds des e.recordedAt)) m0,
        ∃ t : ℤ, x.1 = dayKey t ∧ x.2.1 = assetsAsOf aIds aes t ∧
          x.2.2 = debtAsOf dIds des t := by
  intro l
  induction l with
  | nil => intro m0 h0 x hx; exact h0 x hx
  | cons e rest ih =>
    intro m0 h0 x hx
    simp only [List.foldl_cons] at hx
    refine ih _ ?_ x hx
    intro y hy
    rcases mem_upsertDay _ _ _ y hy with heq | hmemy
    · exact ⟨e.recordedAt, by rw [heq], by rw [heq], by rw [heq]⟩
    · exact h0 y hmemy

/-- Helper: the projection of the date map to chart points, elementwise. -/
theorem extOnlyPoints_elem :
    ∀ (l : List (ℤ × ℚ × ℚ)) (prev : Option (ℚ × ℚ)) (i : ℕ) (kv : ℤ × ℚ × ℚ),
      l[i]? = some kv →
      ∃ pt, (extOnlyPoints prev l)[i]? = some pt ∧
        pt.date = kv.1 ∧ pt.externalAssets = kv.2.1 ∧ pt.externalDebt = some kv.2.2 ∧
        pt.combinedValue = kv.2.1 - kv.2.2 := by
  intro l
  induction l with
  | nil => intro prev i kv h; simp at h
  | cons y rest ih =>
    intro prev i kv h
    obtain ⟨day, v⟩ := y
    cases i with
    | zero =>
      simp only [List.getElem?_cons_zero, Option.some_inj] at h
      subst h
      simp only [extOnlyPoints, List.getElem?_cons_zero]
      exact ⟨_, rfl, rfl, rfl, rfl, rfl⟩
    | succ n =>
      have h2 : rest[n]? = some kv := by simpa using h
      obtain ⟨pt, hpt, h3, h4, h5, h6⟩ := ih (some v) n kv h2
      refine ⟨pt, ?_, h3, h4, h5, h6⟩
      simp only [extOnlyPoints, List.getElem?_cons_succ]
      exact hpt

/-- Helper: the projection keeps the date map's length. -/
theorem extOnlyPoints_length :
    ∀ (l : List (ℤ × ℚ × ℚ)) (prev : Option (ℚ × ℚ)),
      (extOnlyPoints prev l).length = l.length := by
  intro l
  induction l with
  | nil => intro prev; rfl
  | cons y rest ih =>
    intro prev
    obtain ⟨day, v⟩ := y
    simp only [extOnlyPoints, List.length_cons, ih]

/-- C7: every point of the external-accounts-only series carries, for some
timestamp of its day, the asset total and the debt total as of that
timestamp, and its net worth `combinedValue` is assets minus debt; the
debt total sums the magnitude `|v|` of each debt account's most recent
entry at or before that timestamp. -/
theorem external_only_debt_subtracted :
    (∀ (accts : List ExtAccount) (allEntries : List Entry) (i : ℕ) (pt : RoutePoint),
      (growthGET [] accts allEntries)[i]? = some pt →
      ∃ (t : ℤ) (debt : ℚ),
        pt.date = dayKey t ∧
        pt.externalAssets = assetsAsOf (assetAccountIds accts) (assetEntries accts allEntries) t ∧
        pt.externalDebt = some debt ∧
        debt = debtAsOf (debtAccountIds accts) (debtEntries accts allEntries) t ∧
        pt.combinedValue = pt.externalAssets - debt) ∧
    (∀ (ids : List ℕ) (des : List Entry) (t : ℤ),
      debtAsOf ids des t =
        (ids.map (fun a =>
          match asOfPick des a t with
          | some e => |e.value|
          | none => 0)).sum) ∧
    (∀ (des : List Entry) (a : ℕ) (t : ℤ) (e : Entry),
      asOfPick des a t = some e →
      e ∈ des ∧ e.accountId = a ∧ e.recordedAt ≤ t ∧
        ∀ e2 ∈ des, e2.accountId = a → e2.recordedAt ≤ t → e2.recordedAt ≤ e.recordedAt) := by
  refine ⟨?_, fun ids des t => rfl, fun des a t e h => asOfPick_spec des a t e h⟩
  intro accts allEntries i pt hpt
  by_cases hc : (assetEntries accts allEntries ++ debtEntries accts allEntries).isEmpty
  · rw [growthGET, if_pos (by simp), if_pos hc] at hpt
    simp at hpt
  · rw [growthGET, if_pos (by simp), if_neg hc] at hpt
    rw [extOnlySeries] at hpt
    have hlen : i < (List.insertionSort (fun a b : ℤ × ℚ × ℚ => a.1 ≤ b.1)
        (extOnlyDateMap (assetAccountIds accts) (debtAccountIds accts)
          (assetEntries accts allEntries) (debtEntries accts allEntries)
          (List.insertionSort (fun e1 e2 : Entry => e1.recordedAt ≤ e2.recordedAt)
            (assetEntries accts allEntries ++ debtEntries accts allEntries)))).length := by
      have h1 := (List.getElem?_eq_some.mp hpt).1
      rwa [extOnlyPoints_length] at h1
    obtain ⟨kv, hkv⟩ : ∃ kv, (List.insertionSort (fun a b : ℤ × ℚ × ℚ => a.1 ≤ b.1)
        (extOnlyDateMap (assetAccountIds accts) (debtAccountIds accts)
          (assetEntries accts allEntries) (debtEntries accts allEntries)
          (List.insertionSort (fun e1 e2 : Entry => e1.recordedAt ≤ e2.recordedAt)
            (assetEntries accts allEntries ++ debtEntries accts allEntries))))[i]? = some kv :=
      ⟨_, List.getElem?_eq_getElem hlen⟩
    obtain ⟨pt2, hpt2, hd, ha, hdebt, hcomb⟩ := extOnlyPoints_elem _ none i kv hkv
    rw [hpt2] at hpt
    have hpteq : pt2 = pt := Option.some_inj.mp hpt
    subst hpteq
    have hkvmem : kv ∈ extOnlyDateMap (assetAccountIds accts) (debtAccountIds accts)
        (assetEntries accts allEntries) (debtEntries accts allEntries)
        (List.insertionSort (fun e1 e2 : Entry => e1.recordedAt ≤ e2.recordedAt)
          (assetEntries accts allEntries ++ debtEntries accts allEntries)) := by
      have hm := List.getElem?_eq_some.mp hkv
      rcases hm with ⟨hlt, hget⟩
      have : kv ∈ List.insertionSort (fun a b : ℤ × ℚ × ℚ => a.1 ≤ b.1)
          (extOnlyDateMap (assetAccountIds accts) (debtAccountIds accts)
            (assetEntries accts allEntries) (debtEntries accts allEntries)
            (List.insertionSort (fun e1 e2 : Entry => e1.recordedAt ≤ e2.recordedAt)
              (assetEntries accts allEntries ++ debtEntries accts allEntries))) := by
        rw [← hget]
        exact List.getElem_mem _
      exact (List.perm_insertionSort _ _).mem_iff.mp this
    obtain ⟨t, ht1, ht2, ht3⟩ := extOnlyDateMap_inv (assetAccountIds accts)
      (debtAccountIds accts) (assetEntries accts allEntries) (debtEntries accts allEntries)
      _ [] (by intro x hx; simp at hx) kv hkvmem
    refine ⟨t, kv.2.2, ?_, ?_, ?_, ?_, ?_⟩
    · rw [hd, ht1]
    · rw [ha, ht2]
    · exact hdebt
    · exact ht3
    · rw [hcomb, ha]

/-- Witness for `external_only_debt_subtracted`: with one asset account and
one mortgage holding a positive 2000 entry, the single external-only point
subtracts the 2000 debt from net worth. -/
theorem external_only_debt_subtracted_witness :
    ∃ pt, (growthGET [] wAccounts wEntries)[0]? = some pt ∧
      ∃ (t : ℤ) (debt : ℚ), pt.externalDebt = some debt ∧
        debt = debtAsOf (debtAccountIds wAccounts) (debtEntries wAccounts wEntries) t ∧
        pt.combinedValue = pt.externalAssets - debt := by
  cases hpt : (growthGET [] wAccounts wEntries)[0]? with
  | none => exact absurd hpt (by decide)
  | some pt =>
    obtain ⟨t, debt, h1, h2, h3, h4, h5⟩ :=
      external_only_debt_subtracted.1 wAccounts wEntries 0 pt hpt
    exact ⟨pt, rfl, t, debt, h3, h4, h5⟩

/-- Helper: one step of the source-slot carry fold. -/
theorem slotState_cons (a : ℚ) (o : Option ℚ) (l : List (Option ℚ)) :
    slotState a (o :: l) = slotState (o.getD a) l := rfl

/-- Helper: one step of the external-assets carry fold. -/
theorem extSlotState_cons (c : ℚ) (o : Option ℚ) (l : List (Option ℚ)) :
    extSlotState c (o :: l) =
      extSlotState (match o with | some v => if 0 < v then v else c | none => c) l := rfl

/-- Helper: the carry fold computes the most recently set value (or the
initial value when none is set). -/
theorem slotState_eq_lastReportedD :
    ∀ (l : List (Option ℚ)) (a : ℚ), slotState a l = lastReportedD a l := by
  intro l
  induction l with
  | nil => intro a; rfl
  | cons o t ih =>
    intro a
    rw [slotState_cons, ih]
    cases o with
    | none => rfl
    | some v =>
      show lastReportedD v t = lastReportedD a (some v :: t)
      rw [lastReportedD, lastReportedD]
      rw [show (some v :: t).filterMap id = v :: t.filterMap id from by simp]
      rw [List.getLastD_cons]

/-- Helper: an unset slot at the end does not change the last report. -/
theorem lastReportedD_append_none (d : ℚ) (l : List (Option ℚ)) :
    lastReportedD d (l ++ [none]) = lastReportedD d l := by
  rw [lastReportedD, lastReportedD, List.filterMap_append]
  simp

/-- Helper: the carry pass keeps the series length. -/
theorem carryPass_length :
    ∀ (pts : List CombinedPoint) (hRJ hWS : Bool) (a b c : ℚ),
      (carryPass hRJ hWS a b c pts).length = pts.length := by
  intro pts
  induction pts with
  | nil => intro hRJ hWS a b c; rfl
  | cons q rest ih =>
    intro hRJ hWS a b c
    simp only [carryPass, List.length_cons, ih]

/-- Helper: the carry pass, elementwise — the element at index `i` takes
each slot's value when set and the slot's carry variable over the strict
prefix otherwise, and the totals are the sums of those resolutions. -/
theorem carryPass_elem :
    ∀ (pts : List CombinedPoint) (hRJ hWS : Bool) (a b c : ℚ) (i : ℕ) (p : CombinedPoint),
      pts[i]? = some p →
      (carryPass hRJ hWS a b c pts)[i]? = some
        { p with
          rjValue := if hRJ then some (slotState a ((pts.take (i+1)).map (fun x => x.rjValue))) else none
          wsValue := if hWS then some (slotState b ((pts.take (i+1)).map (fun x => x.wsValue))) else none
          totalPortfolioValue :=
            slotState a ((pts.take (i+1)).map (fun x => x.rjValue)) +
              slotState b ((pts.take (i+1)).map (fun x => x.wsValue))
          externalAssets :=
            some (p.externalAssets.getD (extSlotState c ((pts.take i).map (fun x => x.externalAssets))))
          combinedValue :=
            (slotState a ((pts.take (i+1)).map (fun x => x.rjValue)) +
              slotState b ((pts.take (i+1)).map (fun x => x.wsValue))) +
              p.externalAssets.getD
                (extSlotState c ((pts.take i).map (fun x => x.externalAssets))) } := by
  intro pts
  induction pts with
  | nil => intro hRJ hWS a b c i p h; simp at h
  | cons q rest ih =>
    intro hRJ hWS a b c i p h
    cases i with
    | zero =>
      simp only [List.getElem?_cons_zero, Option.some_inj] at h
      subst h
      simp only [carryPass, List.getElem?_cons_zero, Option.some_inj]
      rfl
    | succ n =>
      have h2 : rest[n]? = some p := by simpa using h
      have hstep := ih hRJ hWS (q.rjValue.getD a) (q.wsValue.getD b)
        (match q.externalAssets with | some v => if 0 < v then v else c | none => c) n p h2
      simp only [carryPass, List.getElem?_cons_succ]
      rw [hstep]
      simp only [List.take_succ_cons, List.map_cons, slotState_cons, extSlotState_cons]

/-- C2: every merged point's `totalPortfolioValue` is the sum over both
source slots of the slot's direct-or-carried value (the most recent set
slot value in the prefix ending at this point, zero-initialized), and its
`combinedValue` is `totalPortfolioValue` plus the point's (possibly
carried-forward) external-assets value. -/
theorem merger_totals :
    ∀ (sources : List SourceSeries) (i : ℕ) (pt : CombinedPoint),
      (combinedGrowthData sources)[i]? = some pt →
      pt.totalPortfolioValue =
        lastReportedD 0 (((sortedData sources).take (i+1)).map (fun x => x.rjValue)) +
          lastReportedD 0 (((sortedData sources).take (i+1)).map (fun x => x.wsValue)) ∧
      ∃ ext : ℚ, pt.externalAssets = some ext ∧
        pt.combinedValue = pt.totalPortfolioValue + ext := by
  intro sources i pt hpt
  have hlen : i < (sortedData sources).length := by
    have h1 := (List.getElem?_eq_some.mp hpt).1
    rwa [combinedGrowthData, carryPass_length] at h1
  obtain ⟨p, hp⟩ : ∃ p, (sortedData sources)[i]? = some p :=
    ⟨_, List.getElem?_eq_getElem hlen⟩
  have hc := carryPass_elem (sortedData sources) (hasSource sources Source.rj)
    (hasSource sources Source.ws) 0 0 0 i p hp
  rw [combinedGrowthData, hc] at hpt
  have hpteq := Option.some_inj.mp hpt
  rw [← hpteq]
  rw [slotState_eq_lastReportedD, slotState_eq_lastReportedD]
  exact ⟨rfl, _, rfl, rfl⟩

/-- C1: at a merged point where a source has no direct data, that source's
contribution to `totalPortfolioValue` is the slot's value at the most
recent earlier point where it was set, and zero when it was never set
(the carry variable starts at zero and is updated only by set slots);
when the source is charted, the point's slot field shows exactly that
carried value. -/
theorem merger_carry_forward :
    ∀ (sources : List SourceSeries) (i : ℕ) (p pt : CombinedPoint),
      (sortedData sources)[i]? = some p →
      (combinedGrowthData sources)[i]? = some pt →
      (p.rjValue = none →
        pt.totalPortfolioValue =
          lastReportedD 0 (((sortedData sources).take i).map (fun x => x.rjValue)) +
            lastReportedD 0 (((sortedData sources).take (i+1)).map (fun x => x.wsValue))) ∧
      (p.wsValue = none →
        pt.totalPortfolioValue =
          lastReportedD 0 (((sortedData sources).take (i+1)).map (fun x => x.rjValue)) +
            lastReportedD 0 (((sortedData sources).take i).map (fun x => x.wsValue))) ∧
      (p.rjValue = none →
        (((sortedData sources).take i).map (fun x => x.rjValue)).filterMap id = [] →
        pt.totalPortfolioValue =
          lastReportedD 0 (((sortedData sources).take (i+1)).map (fun x => x.wsValue))) ∧
      (p.rjValue = none → hasSource sources Source.rj = true →
        pt.rjValue =
          some (lastReportedD 0 (((sortedData sources).take i).map (fun x => x.rjValue)))) := by
  intro sources i p pt hp hpt
  have hc := carryPass_elem (sortedData sources) (hasSource sources Source.rj)
    (hasSource sources Source.ws) 0 0 0 i p hp
  rw [combinedGrowthData, hc] at hpt
  have hpteq := Option.some_inj.mp hpt
  have htake : (sortedData sources).take (i+1) = (sortedData sources).take i ++ [p] := by
    rw [List.take_succ]
    rw [show (sortedData sources)[i]? = some p from hp]
    rfl
  have hrjnone : p.rjValue = none →
      lastReportedD 0 (((sortedData sources).take (i+1)).map (fun x => x.rjValue)) =
        lastReportedD 0 (((sortedData sources).take i).map (fun x => x.rjValue)) := by
    intro hn
    rw [htake]
    simp only [List.map_append, List.map_cons, List.map_nil, hn]
    exact lastReportedD_append_none _ _
  have hwsnone : p.wsValue = none →
      lastReportedD 0 (((sortedData sources).take (i+1)).map (fun x => x.wsValue)) =
        lastReportedD 0 (((sortedData sources).take i).map (fun x => x.wsValue)) := by
    intro hn
    rw [htake]
    simp only [List.map_append, List.map_cons, List.map_nil, hn]
    exact lastReportedD_append_none _ _
  refine ⟨?_, ?_, ?_, ?_⟩
  · intro hn
    rw [← hpteq]
    show slotState 0 _ + slotState 0 _ = _
    rw [slotState_eq_lastReportedD, slotState_eq_lastReportedD, hrjnone hn]
  · intro hn
    rw [← hpteq]
    show slotState 0 _ + slotState 0 _ = _
    rw [slotState_eq_lastReportedD, slotState_eq_lastReportedD, hwsnone hn]
  · intro hn hempty
    rw [← hpteq]
    show slotState 0 _ + slotState 0 _ = _
    rw [slotState_eq_lastReportedD, slotState_eq_lastReportedD, hrjnone hn]
    rw [show lastReportedD 0 (((sortedData sources).take i).map (fun x => x.rjValue)) = 0 from by
      rw [lastReportedD, hempty]; rfl]
    exact zero_add _
  · intro hn hhas
    rw [← hpteq]
    show (if hasSource sources Source.rj then some (slotState 0 _) else none) = _
    rw [hhas]
    simp only [if_true]
    rw [slotState_eq_lastReportedD, hrjnone hn]

/-- Witness for `merger_carry_forward` on Scenario A: at the day-1 point
(WS reported 500, RJ has no data) the total equals RJ's carried day-0
value plus WS's direct value. -/
theorem merger_carry_forward_witness :
    ∃ p pt, (sortedData wSources)[1]? = some p ∧
      (combinedGrowthData wSources)[1]? = some pt ∧
      p.rjValue = none ∧
      pt.totalPortfolioValue =
        lastReportedD 0 (((sortedData wSources).take 1).map (fun x => x.rjValue)) +
          lastReportedD 0 (((sortedData wSources).take 2).map (fun x => x.wsValue)) := by
  cases hp : (sortedData wSources)[1]? with
  | none => exact absurd hp (by decide)
  | some p =>
    cases hpt : (combinedGrowthData wSources)[1]? with
    | none => exact absurd hpt (by decide)
    | some pt =>
      have hrj : p.rjValue = none := by
        have h2 : (sortedData wSources)[1]? = some
            { date := 86400000, rjValue := none, wsValue := some 500, totalPortfolioValue := 0,
              bookValue := 0, gainLoss := 0, externalAssets := none, combinedValue := 0 } := by
          rfl
        rw [h2] at hp
        rw [← Option.some_inj.mp hp]
      exact ⟨p, pt, rfl, rfl, hrj, (merger_carry_forward wSources 1 p pt hp hpt).1 hrj⟩

/-- Witness for `merger_totals` at the day-1 point of Scenario A. -/
theorem merger_totals_witness :
    ∃ pt, (combinedGrowthData wSources)[1]? = some pt ∧
      pt.totalPortfolioValue =
        lastReportedD 0 (((sortedData wSources).take 2).map (fun x => x.rjValue)) +
          lastReportedD 0 (((sortedData wSources).take 2).map (fun x => x.wsValue)) ∧
      ∃ ext : ℚ, pt.externalAssets = some ext ∧
        pt.combinedValue = pt.totalPortfolioValue + ext := by
  cases hpt : (combinedGrowthData wSources)[1]? with
  | none => exact absurd hpt (by decide)
  | some pt =>
    obtain ⟨h1, h2⟩ := merger_totals wSources 1 pt hpt
    exact ⟨pt, rfl, h1, h2⟩

/-- Helper: the snapshot-backed series has one point per snapshot row. -/
theorem snapshotPoints_length (ids : List ℕ) (es : List Entry) (curExt : ℚ) :
    ∀ (gd : List GrowthRow) (prev : Option GrowthRow),
      (snapshotPoints ids es curExt prev gd).length = gd.length := by
  intro gd
  induction gd with
  | nil => intro prev; rfl
  | cons x rest ih =>
    intro prev
    simp only [snapshotPoints, List.length_cons, ih]

/-- Helper: an upsert never empties the map. -/
theorem upsertDay_ne_nil (m : List (ℤ × ℚ × ℚ)) (k : ℤ) (v : ℚ × ℚ) :
    upsertDay m k v ≠ [] := by
  cases m with
  | nil => simp [upsertDay]
  | cons y rest =>
    obtain ⟨k1, v1⟩ := y
    rw [upsertDay]
    by_cases hk : k1 = k
    · rw [if_pos hk]; simp
    · rw [if_neg hk]; simp

/-- Helper: folding upserts over any entries keeps a nonempty map
nonempty. -/
theorem foldl_upsert_ne_nil (aIds dIds : List ℕ) (aes des : List Entry) :
    ∀ (l : List Entry) (m0 : List (ℤ × ℚ × ℚ)), m0 ≠ [] →
      l.foldl (fun m e => upsertDay m (dayKey e.recordedAt)
        (assetsAsOf aIds aes e.recordedAt, debtAsOf dIds des e.recordedAt)) m0 ≠ [] := by
  intro l
  induction l with
  | nil => intro m0 h; exact h
  | cons e rest ih =>
    intro m0 h
    simp only [List.foldl_cons]
    exact ih _ (upsertDay_ne_nil _ _ _)

/-- Helper: the projection of a nonempty date map is nonempty. -/
theorem extOnlyPoints_ne_nil (l : List (ℤ × ℚ × ℚ)) (prev : Option (ℚ × ℚ))
    (h : l ≠ []) : extOnlyPoints prev l ≠ [] := by
  cases l with
  | nil => exact absurd rfl h
  | cons y rest =>
    obtain ⟨day, v⟩ := y
    simp [extOnlyPoints]

/-- Helper: with at least one external entry, the external-only series is
nonempty. -/
theorem extOnlySeries_ne_nil (aIds dIds : List ℕ) (aes des : List Entry)
    (h : aes ++ des ≠ []) : extOnlySeries aIds dIds aes des ≠ [] := by
  rw [extOnlySeries]
  apply extOnlyPoints_ne_nil
  intro hnil
  have hlen := congrArg List.length hnil
  rw [(List.perm_insertionSort (fun a b : ℤ × ℚ × ℚ => a.1 ≤ b.1) _).length_eq] at hlen
  have hmapnil : extOnlyDateMap aIds dIds aes des
      (List.insertionSort (fun e1 e2 : Entry => e1.recordedAt ≤ e2.recordedAt) (aes ++ des)) = [] :=
    List.length_eq_zero.mp hlen
  have hsne : List.insertionSort (fun e1 e2 : Entry => e1.recordedAt ≤ e2.recordedAt)
      (aes ++ des) ≠ [] := by
    intro hsnil
    have hlen2 := congrArg List.length hsnil
    rw [(List.perm_insertionSort (fun e1 e2 : Entry => e1.recordedAt ≤ e2.recordedAt)
      _).length_eq] at hlen2
    exact h (List.length_eq_zero.mp hlen2)
  cases hse : List.insertionSort (fun e1 e2 : Entry => e1.recordedAt ≤ e2.recordedAt)
      (aes ++ des) with
  | nil => exact hsne hse
  | cons e rest =>
    rw [hse, extOnlyDateMap] at hmapnil
    simp only [List.foldl_cons] at hmapnil
    exact foldl_upsert_ne_nil aIds dIds aes des rest _ (upsertDay_ne_nil _ _ _) hmapnil

/-- C3: the growth-series computation is total over the degenerate inputs:
with no snapshots and no external entries it returns the empty series
(a valid output, not an error); with snapshots it returns one point per
snapshot row; and with only external entries it returns the nonempty
external-only series.  Every branch of the embedded route is a total
function. -/
theorem growth_series_total_on_degenerate_inputs :
    (∀ accts : List ExtAccount, growthGET [] accts [] = []) ∧
    (∀ (gd : List GrowthRow) (accts : List ExtAccount) (es : List Entry),
      gd ≠ [] → (growthGET gd accts es).length = gd.length) ∧
    (∀ (accts : List ExtAccount) (es : List Entry),
      assetEntries accts es ++ debtEntries accts es = [] → growthGET [] accts es = []) ∧
    (∀ (accts : List ExtAccount) (es : List Entry),
      assetEntries accts es ++ debtEntries accts es ≠ [] →
        growthGET [] accts es =
          extOnlySeries (assetAccountIds accts) (debtAccountIds accts)
            (assetEntries accts es) (debtEntries accts es) ∧
        growthGET [] accts es ≠ []) := by
  refine ⟨fun accts => rfl, ?_, ?_, ?_⟩
  · intro gd accts es h
    rw [growthGET, if_neg (by simpa using h)]
    exact snapshotPoints_length _ _ _ gd none
  · intro accts es h
    rw [growthGET, if_pos (by simp), if_pos (by simp [h])]
  · intro accts es h
    have heq : growthGET [] accts es =
        extOnlySeries (assetAccountIds accts) (debtAccountIds accts)
          (assetEntries accts es) (debtEntries accts es) := by
      rw [growthGET, if_pos (by simp), if_neg (by simpa using h)]
    exact ⟨heq, by rw [heq]; exact extOnlySeries_ne_nil _ _ _ _ h⟩

/-- Witness for `growth_series_total_on_degenerate_inputs`: no data gives
the empty series; two snapshot rows give two points; external entries
alone give a nonempty series. -/
theorem growth_series_total_witness :
    growthGET [] ([] : List ExtAccount) [] = [] ∧
    (growthGET wGrowthRows wAccounts wEntries).length = 2 ∧
    growthGET [] wAccounts wEntries ≠ [] := by
  refine ⟨growth_series_total_on_degenerate_inputs.1 [], ?_, ?_⟩
  · rw [growth_series_total_on_degenerate_inputs.2.1 wGrowthRows wAccounts wEntries (by decide)]
    rfl
  · exact (growth_series_total_on_degenerate_inputs.2.2.2 wAccounts wEntries (by decide)).2

/-- C10: the normalizers are independent of the personally identifying
`Client Id` and `Account Number` columns: two raw rows that differ only in
those columns normalize to identical records (so no field of the output
can carry either value).  Both reductions are definitional — neither
transform ever projects those fields. -/
theorem pii_columns_do_not_influence_output :
    (∀ (row : CSVRow) (cid an : Option String),
      transformCsvRow { row with clientId := cid, accountNumber := an } = transformCsvRow row) ∧
    (∀ (row : WSRow) (an : Option String),
      transformWealthsimpleCsvRow { row with accountNumber := an } =
        transformWealthsimpleCsvRow row) :=
  ⟨fun _ _ _ => rfl, fun _ _ => rfl⟩

/-- C8 counterexample: the normalizer rounds with JavaScript `Math.round`,
which sends an exact half toward +∞, not away from zero: the monetary
amount `-0.125` parses to `-0.12`, while round-half-away-from-zero (the
claimed mode) yields `-0.13`. -/
theorem rounding_mode_counterexample :
    parseCurrency (some "-0.125") 2 = some (-(12 : ℚ)/100) ∧
    specRoundHalfAwayTo (-(125 : ℚ)/1000) 2 = -(13 : ℚ)/100 ∧
    ((-(12 : ℚ)/100) ≠ -(13 : ℚ)/100) := by
  refine ⟨?_, ?_, by norm_num⟩
  · rw [parseCurrency]
    rw [if_neg (by decide)]
    rw [show jsParseFloat (cleanCurrencyChars "-0.125".toList) =
        some ((-125 : ℚ) * (10 : ℚ) ^ (-3 : ℤ)) from by
      rw [jsParseFloat, show jsParseFloatP (cleanCurrencyChars "-0.125".toList) =
        some (-125, -3) from by decide]
      rfl]
    norm_num [roundTo, jsRound]
  · rw [specRoundHalfAwayTo, if_neg (by norm_num)]
    norm_num

/-- C8 amended: each parsed amount is rounded exactly once at parse time —
monetary fields to 2 fractional digits, quantities to 6, prices and
per-share costs to 4 — but with JavaScript round-half-up (ties toward +∞),
so a negative exact half rounds toward the smaller magnitude; re-rounding
an already-rounded value is the identity (no drift). -/
theorem parse_time_rounding_half_up :
    (∀ row : CSVRow,
      (transformCsvRow row).bookValue = parseCurrency row.bookValue 2 ∧
      (transformCsvRow row).marketValue = parseCurrency row.marketValue 2 ∧
      (transformCsvRow row).gainLoss = parseCurrency row.gainLoss 2 ∧
      (transformCsvRow row).accruedInterest = parseCurrency row.accruedInterest 2 ∧
      (transformCsvRow row).quantity = parseCurrency row.quantity 6 ∧
      (transformCsvRow row).price = parseCurrency row.price 4 ∧
      (transformCsvRow row).averageCost = parseCurrency row.averageCost 4) ∧
    (∀ (s : String) (d : ℕ),
      parseCurrency (some s) d =
        if s = "" ∨ s.toList.all (fun c => c = ' ' ∨ c = '\t' ∨ c = '\n' ∨ c = '\r') ∨ s = "-"
        then none
        else (jsParseFloat (cleanCurrencyChars s.toList)).map (fun q => roundTo q d)) ∧
    (∀ (q : ℚ) (d : ℕ), roundTo q d = ((⌊q * 10 ^ d + 1/2⌋ : ℤ) : ℚ) / 10 ^ d) ∧
    (∀ n : ℤ, jsRound ((n : ℚ) + 1/2) = n + 1) ∧
    (∀ (q : ℚ) (d : ℕ), roundTo (roundTo q d) d = roundTo q d) := by
  refine ⟨fun row => ⟨rfl, rfl, rfl, rfl, rfl, rfl, rfl⟩, ?_, fun q d => rfl, ?_, ?_⟩
  · intro s d
    rw [parseCurrency]
    by_cases h : s = "" ∨ (s.toList.all fun c => c = ' ' ∨ c = '\t' ∨ c = '\n' ∨ c = '\r') = true ∨ s = "-"
    · rw [if_pos h, if_pos h]
    · rw [if_neg h, if_neg h]
      cases hj : jsParseFloat (cleanCurrencyChars s.toList) <;> simp [hj]
  · intro n
    have h : (n : ℚ) + 1/2 + 1/2 = ((n + 1 : ℤ) : ℚ) := by push_cast; ring
    rw [jsRound, h, Int.floor_intCast]
  · intro q d
    have h10 : ((10 : ℚ) ^ d) ≠ 0 := by positivity
    have hfloor : ∀ m : ℤ, ⌊(m : ℚ) + 1/2⌋ = m := fun m => by
      rw [Int.floor_int_add]
      norm_num
    rw [roundTo, roundTo, div_mul_cancel₀ _ h10, jsRound, jsRound, hfloor]

/-- C9 counterexample: a row whose required numeric column `Market Value`
is unparseable does not fail normalization and is not rejected — the CSV
upload persists the snapshot (record count 1) and the holding row, with
`marketValue` stored as null.  No `MalformedRowError` exists in the code. -/
theorem malformed_row_is_persisted :
    parseCurrency (some "abc") 2 = none ∧
    (transformCsvRow badRow).marketValue = none ∧
    (importSnapshot [badRow]).2 = [transformCsvRow badRow] ∧
    (importSnapshot [badRow]).2.length = 1 ∧
    (importSnapshot [badRow]).1.recordCount = 1 :=
  ⟨rfl, rfl, rfl, rfl, rfl⟩

/-- C9 amended: normalization is total — a required numeric field that
cannot be parsed becomes null in the returned record, no error is raised,
and the import persists the snapshot and one holding row per input row
(nothing is rejected). -/
theorem unparseable_field_becomes_null :
    (∀ rows : List CSVRow,
      (importSnapshot rows).2.length = rows.length ∧
      (importSnapshot rows).1.recordCount = rows.length) ∧
    (∀ rows : List CSVRow, ∀ row ∈ rows, transformCsvRow row ∈ (importSnapshot rows).2) ∧
    (∀ row : CSVRow, parseCurrency row.marketValue 2 = none →
      (transformCsvRow row).marketValue = none) ∧
    (∀ row : CSVRow, parseCurrency row.bookValue 2 = none →
      (transformCsvRow row).bookValue = none) := by
  refine ⟨fun rows => ⟨by simp [importSnapshot], rfl⟩, ?_, fun row h => h, fun row h => h⟩
  intro rows row hmem
  exact List.mem_map_of_mem transformCsvRow hmem

/-- Witness for `unparseable_field_becomes_null` at the concrete bad row. -/
theorem unparseable_field_becomes_null_witness :
    transformCsvRow badRow ∈ (importSnapshot [badRow]).2 ∧
    (transformCsvRow badRow).marketValue = none :=
  ⟨unparseable_field_becomes_null.2.1 [badRow] badRow (by simp),
   unparseable_field_becomes_null.2.2.1 badRow rfl⟩

/-- C6: the aggregator's stored gain/loss percent is `0` whenever the
snapshot's total book value is at most `0` (in particular exactly `0` at
book value `0`, with no division performed), and otherwise equals
`(marketValue - bookValue) / bookValue * 100`. -/
theorem gain_loss_percent_guard :
    ∀ hs : List HoldingInput,
      ((computeMetrics hs).totalBookValue ≤ 0 → (computeMetrics hs).totalGainLossPercent = 0) ∧
      (0 < (computeMetrics hs).totalBookValue →
        (computeMetrics hs).totalGainLossPercent =
          ((computeMetrics hs).totalMarketValue - (computeMetrics hs).totalBookValue) /
            (computeMetrics hs).totalBookValue * 100) ∧
      ((computeMetrics hs).totalBookValue = 0 → (computeMetrics hs).totalGainLossPercent = 0) := by
  intro hs
  refine ⟨fun h => ?_, fun h => ?_, fun h => ?_⟩
  · simp only [computeMetrics] at h ⊢
    rw [if_neg (not_lt.mpr h)]
  · simp only [computeMetrics] at h ⊢
    rw [if_pos h]
  · simp only [computeMetrics] at h ⊢
    rw [if_neg (by rw [h]; exact lt_irrefl 0)]

/-- Witness for `gain_loss_percent_guard`: the empty snapshot has total
book value `0` and gain/loss percent exactly `0`. -/
theorem gain_loss_percent_guard_witness :
    (computeMetrics []).totalBookValue = 0 ∧ (computeMetrics []).totalGainLossPercent = 0 :=
  ⟨rfl, (gain_loss_percent_guard []).2.2 rfl⟩

end FinApp
